import Mathlib

/-!
Verification of the zenolink-web ingestion-and-enrichment pipeline.

The definitions below are a shallow embedding of the repository's code:
* `parseCsv` embeds `src/lib/csv.ts` (character-level CSV state machine);
* `computeWarnings`, `mkInputHash`, `mkPair`, `generatePairs`, `buildRow`
  embed the pair-generation and record-building logic of
  `src/app/api/runs/route.ts` (and its enrichment variant);
* `normalizeEnsemblId`, `resolveEnsemblIds` embed the identifier resolver of
  the enrichment handler;
* `fetchAssociationScoreAux` embeds the paginated OpenTargets association
  fetch, with the remote service modelled as a function from page index to
  response and an explicit fuel argument (the JS loop is `while (true)`);
* `INDICATIONS`, `isValidIndication`, `indicationGate` embed
  `src/lib/indications.ts` and the enrichment handler's `indication_id`
  validation.

The SHA-256 digest itself lives in Node's `crypto` module, outside the
repository; every definition that needs it is parameterised by an arbitrary
`hash : String → String` applied to the exact preimage string the code builds.
-/

namespace Zenolink

/-- JS whitespace predicate backing `String.prototype.trim`, modelled with
`Char.isWhitespace`. -/
def jsWhitespace (c : Char) : Bool := c.isWhitespace

/-- Drop whitespace characters from both ends of a character list. -/
def jsTrimData (l : List Char) : List Char :=
  (((l.dropWhile jsWhitespace).reverse).dropWhile jsWhitespace).reverse

/-- JS `value.trim()`. -/
def jsTrim (s : String) : String := String.mk (jsTrimData s.data)

/-- Warning constant from `route.ts`. -/
def WARNING_SEQUENCE_TOO_LONG : String := "sequence_too_long"

/-- Warning constant from `route.ts`. -/
def WARNING_INVALID_SMILES : String := "invalid_smiles"

/-- Warning constant from `route.ts`. -/
def WARNING_SEQUENCE_MISSING : String := "sequence_missing"

/-- Warning constant from `route.ts`. -/
def WARNING_PREVIOUS_RESULT : String := "previous_result_available"

/-- Result of `parseCsv` (`CsvResult` in `src/lib/csv.ts`). -/
structure CsvResult where
  headers : List String
  rows : List (List String)
  deriving DecidableEq

/-- Character-level loop of `parseCsv` in `src/lib/csv.ts`.  Arguments mirror
the mutable locals: remaining input, `inQuotes`, `field`, `row`, `rows`.
The final `if (field.length > 0 || row.length > 0)` flush is the nil case. -/
def parseCsvAux : List Char → Bool → List Char → List String → List (List String) →
    List (List String)
  | [], _, field, row, rows =>
      if field ≠ [] ∨ row ≠ [] then rows ++ [row ++ [String.mk field]] else rows
  | c :: rest, true, field, row, rows =>
      if c = '"' then
        if rest.head? = some '"' then parseCsvAux rest.tail true (field ++ ['"']) row rows
        else parseCsvAux rest false field row rows
      else parseCsvAux rest true (field ++ [c]) row rows
  | c :: rest, false, field, row, rows =>
      if c = '"' then parseCsvAux rest true field row rows
      else if c = ',' then parseCsvAux rest false [] (row ++ [String.mk field]) rows
      else if c = '\n' then parseCsvAux rest false [] [] (rows ++ [row ++ [String.mk field]])
      else if c = '\r' then
        if rest.head? = some '\n' then
          parseCsvAux rest.tail false [] [] (rows ++ [row ++ [String.mk field]])
        else parseCsvAux rest false [] [] (rows ++ [row ++ [String.mk field]])
      else parseCsvAux rest false (field ++ [c]) row rows
termination_by cs _ _ _ _ => cs.length
decreasing_by
all_goals simp_wf
all_goals omega

/-- The byte-order-mark strip (`text.replace` of a leading U+FEFF). -/
def stripBOM (l : List Char) : List Char :=
  match l with
  | [] => []
  | c :: rest => if c = '\uFEFF' then rest else c :: rest

/-- `parseCsv` from `src/lib/csv.ts`: run the state machine, drop fully-blank
records, take the first surviving record (cells trimmed) as headers. -/
def parseCsv (text : String) : CsvResult :=
  let records := parseCsvAux (stripBOM text.data) false [] [] []
  let survivors := records.filter (fun line => line.any (fun cell => jsTrim cell != ""))
  match survivors with
  | [] => ⟨[], []⟩
  | hd :: tl => ⟨hd.map jsTrim, tl⟩

/-- Double every quote character (interior-quote escaping). -/
def csvEscapeQuotes : List Char → List Char
  | [] => []
  | c :: rest =>
      if c = '"' then '"' :: '"' :: csvEscapeQuotes rest else c :: csvEscapeQuotes rest

/-- Encoder taken from the round-trip claim's wording: enclose the field in
quotes, with any interior quote doubled. -/
def csvQuote (f : String) : String := String.mk ('"' :: (csvEscapeQuotes f.data ++ ['"']))

/-- A ligand row after column extraction (`ligands` in the handlers): both
fields already trimmed by `row[idx]?.trim() ?? ""`. -/
structure Ligand where
  smiles : String
  ligandName : String
  deriving DecidableEq

/-- A target row after column extraction (`targets` in the handlers). -/
structure Target where
  sequence : String
  geneName : String
  deriving DecidableEq

/-- Column extraction for a ligand row (`row[smilesIndex]?.trim() ?? ""`). -/
def mkLigand (rawSmiles rawName : String) : Ligand :=
  ⟨jsTrim rawSmiles, jsTrim rawName⟩

/-- Column extraction for a target row. -/
def mkTarget (rawSequence rawName : String) : Target :=
  ⟨jsTrim rawSequence, jsTrim rawName⟩

/-- Per-pair warning computation from the handlers' inner loop: `invalid_smiles`
when the trimmed smiles is empty; `sequence_missing` when the trimmed sequence
is empty, else `sequence_too_long` when its length exceeds 1280. -/
def computeWarnings (smiles sequence : String) : List String :=
  (if jsTrim smiles = "" then [WARNING_INVALID_SMILES] else []) ++
    (if jsTrim sequence = "" then [WARNING_SEQUENCE_MISSING]
     else if sequence.length > 1280 then [WARNING_SEQUENCE_TOO_LONG] else [])

/-- The `input_hash` computation: when both trimmed fields are truthy, hash the
preimage built by the template literal, else `null`.  `hash` stands for
`sha256Hex` (Node `crypto`, external to the repository). -/
def mkInputHash (hash : String → String) (smiles sequence modelVersion : String) :
    Option String :=
  if jsTrim smiles ≠ "" ∧ jsTrim sequence ≠ "" then
    some (hash (smiles ++ "|" ++ sequence ++ "|" ++ modelVersion))
  else none

/-- One pair candidate as assembled in the handlers' nested loop. -/
structure PairCandidate where
  smiles : String
  sequence : String
  ligand_name : Option String
  gene_name : Option String
  input_hash : Option String
  warnings : List String
  deriving DecidableEq

/-- The `ligand.ligandName.trim() || null` idiom. -/
def strOrNull (s : String) : Option String :=
  if jsTrim s = "" then none else some (jsTrim s)

/-- Body of the nested pair loop for one (ligand, target) combination. -/
def mkPair (hash : String → String) (modelVersion : String) (l : Ligand) (t : Target) :
    PairCandidate :=
  { smiles := l.smiles
    sequence := t.sequence
    ligand_name := strOrNull l.ligandName
    gene_name := strOrNull t.geneName
    input_hash := mkInputHash hash l.smiles t.sequence modelVersion
    warnings := computeWarnings l.smiles t.sequence }

/-- The cross-product generator: `for (const ligand of ligands) for (const
target of targets) pairs.push(...)`. -/
def generatePairs (hash : String → String) (modelVersion : String)
    (ligands : List Ligand) (targets : List Target) : List PairCandidate :=
  ligands.flatMap (fun l => targets.map (fun t => mkPair hash modelVersion l t))

/-- A prior `status=done` row as selected by the dedup query
(`input_hash, affinity_value, affinity_prob`). -/
structure DoneRun where
  affinity_value : Option Rat
  affinity_prob : Option Rat
  deriving DecidableEq

/-- A record to insert, restricted to the deterministic fields (the fresh
`crypto.randomUUID()` id and the always-null `smiles_canon` are omitted). -/
structure RunRow where
  user_id : String
  status : String
  memo : String
  created_at : String
  smiles : String
  sequence : String
  ligand_name : Option String
  gene_name : Option String
  affinity_value : Option Rat
  affinity_prob : Option Rat
  input_hash : Option String
  warnings : Option (List String)
  model_version : String
  deriving DecidableEq

/-- The record builder from `rowsToInsert = pairs.map(...)` in `route.ts`:
done-with-copied-affinities when warning-free and a prior done row matches the
hash, else failed/queued on the warning flag.  `priorDone` models the
`doneByHash` map. -/
def buildRow (priorDone : String → Option DoneRun)
    (userId memo now modelVersion : String) (pair : PairCandidate) : RunRow :=
  let hasWarnings := pair.warnings ≠ []
  match pair.input_hash.bind priorDone with
  | some prior =>
      if hasWarnings then
        { user_id := userId, status := "failed", memo := memo, created_at := now
          smiles := pair.smiles, sequence := pair.sequence
          ligand_name := pair.ligand_name, gene_name := pair.gene_name
          affinity_value := none, affinity_prob := none
          input_hash := pair.input_hash
          warnings := if pair.warnings = [] then none else some pair.warnings
          model_version := modelVersion }
      else
        { user_id := userId, status := "done", memo := memo, created_at := now
          smiles := pair.smiles, sequence := pair.sequence
          ligand_name := pair.ligand_name, gene_name := pair.gene_name
          affinity_value := prior.affinity_value, affinity_prob := prior.affinity_prob
          input_hash := pair.input_hash
          warnings := some [WARNING_PREVIOUS_RESULT]
          model_version := modelVersion }
  | none =>
      { user_id := userId
        status := if hasWarnings then "failed" else "queued"
        memo := memo, created_at := now
        smiles := pair.smiles, sequence := pair.sequence
        ligand_name := pair.ligand_name, gene_name := pair.gene_name
        affinity_value := none, affinity_prob := none
        input_hash := pair.input_hash
        warnings := if pair.warnings = [] then none else some pair.warnings
        model_version := modelVersion }

/-- JS `toUpperCase`, modelled per character. -/
def jsToUpper (s : String) : String := String.mk (s.data.map Char.toUpper)

/-- Tail of the canonical-identifier regex after the `ENSG` prefix: one or more
digits, optionally followed by a dot and one or more digits, then end. -/
def ensemblTail (l : List Char) : Bool :=
  decide (l.takeWhile Char.isDigit ≠ []) &&
    (match l.dropWhile Char.isDigit with
     | [] => true
     | '.' :: vs => decide (vs ≠ []) && vs.all Char.isDigit
     | _ => false)

/-- The regex test in `normalizeEnsemblId`. -/
def ensemblPattern (l : List Char) : Bool :=
  match l with
  | 'E' :: 'N' :: 'S' :: 'G' :: rest => ensemblTail rest
  | _ => false

/-- `normalizeEnsemblId` from the enrichment handler: trim, reject empty,
uppercase, test the canonical pattern, and strip the dot-version suffix
(`upper.split` at the dot, first component). -/
def normalizeEnsemblId (value : String) : Option String :=
  let trimmed := jsTrim value
  if trimmed = "" then none
  else
    let upper := jsToUpper trimmed
    if ensemblPattern upper.data then
      some (String.mk (upper.data.takeWhile (fun c => c ≠ '.')))
    else none

/-- JS `Map.set` on an insertion-ordered association list. -/
def mapSet (m : List (String × String)) (k v : String) : List (String × String) :=
  if m.any (fun p => p.1 == k) then m.map (fun p => if p.1 == k then (k, v) else p)
  else m ++ [(k, v)]

/-- JS `Map.get`. -/
def mapGet (m : List (String × String)) (k : String) : Option String :=
  (m.find? (fun p => p.1 == k)).map Prod.snd

/-- First pass of `resolveEnsemblIds` over one raw symbol: skip blank symbols,
map syntactic matches directly, push the rest onto the pending batch. -/
def resolveStep (acc : List (String × String) × List String) (raw : String) :
    List (String × String) × List String :=
  let trimmed := jsTrim raw
  if trimmed = "" then acc
  else
    match normalizeEnsemblId trimmed with
    | some direct => (mapSet acc.1 trimmed direct, acc.2)
    | none => (acc.1, acc.2 ++ [trimmed])

/-- The whole first pass: `resolved` map plus `pending` batch. -/
def resolveFirstPass (symbols : List String) : List (String × String) × List String :=
  symbols.foldl resolveStep ([], [])

/-- Application of a successful batch-lookup payload: for each pending symbol,
apply the returned id when present (`entry?.id`). -/
def applyRemote (payload : String → Option String) (resolved : List (String × String))
    (pending : List String) : List (String × String) :=
  pending.foldl
    (fun acc sym =>
      match payload sym with
      | some i => mapSet acc sym i
      | none => acc)
    resolved

/-- `resolveEnsemblIds`: the remote lookup is one batched call, modelled as
`Option` of a payload — `none` models a transport error or a non-success
response, either of which returns `resolved` unchanged. -/
def resolveEnsemblIds (remote : Option (String → Option String)) (symbols : List String) :
    List (String × String) :=
  let fp := resolveFirstPass symbols
  if fp.2 = [] then fp.1
  else
    match remote with
    | none => fp.1
    | some payload => applyRemote payload fp.1 fp.2

/-- `OPENTARGETS_PAGE_SIZE` from the enrichment handler. -/
def OPENTARGETS_PAGE_SIZE : Nat := 50

/-- One row of a returned association page (`score`, `disease.id`, both
optional in the payload type). -/
structure AssocRow where
  score : Option Rat
  diseaseId : Option String
  deriving DecidableEq

/-- The `associatedDiseases` object of a page payload. -/
structure AssocPageData where
  count : Option Nat
  rows : List AssocRow
  deriving DecidableEq

/-- One page response of the remote ranking service: a non-success HTTP status,
or a success whose nested `data.target.associatedDiseases` may be absent. -/
inductive AssocResponse where
  | httpError (status : Nat)
  | success (data : Option AssocPageData)
  deriving DecidableEq

/-- The `for (const row of rows)` scan: return the first row whose
`disease.id` equals the indication id, yielding `row.score` (itself
optional). -/
def scanRows (indicationId : String) : List AssocRow → Option (Option Rat)
  | [] => none
  | r :: rest =>
      if r.diseaseId = some indicationId then some r.score
      else scanRows indicationId rest

/-- How one invocation of `fetchAssociationScore` ends: a normal return
(`score` or `null`), or a thrown `OpenTargets error`. -/
inductive FetchOutcome where
  | completed (score : Option Rat)
  | threw (status : Nat)
  deriving DecidableEq

/-- The `while (true)` pagination loop of `fetchAssociationScore`.  The remote
service is `srv : page index → response`; `index`, `total` mirror the locals;
`reqs` counts issued page requests; `fuel` bounds the recursion depth, with
`none` marking fuel exhaustion (the JS loop has no such bound). -/
def fetchAssociationScoreAux (srv : Nat → AssocResponse) (indicationId : String) :
    Nat → Nat → Nat → Nat → Option (FetchOutcome × Nat)
  | 0, _, _, _ => none
  | fuel + 1, index, total, reqs =>
      match srv index with
      | .httpError s => some (.threw s, reqs + 1)
      | .success data =>
          let rows := (data.map AssocPageData.rows).getD []
          let total2 := (data.bind AssocPageData.count).getD total
          match scanRows indicationId rows with
          | some sc => some (.completed sc, reqs + 1)
          | none =>
              if (index + 1) * OPENTARGETS_PAGE_SIZE ≥ total2 ∨ rows = [] then
                some (.completed none, reqs + 1)
              else fetchAssociationScoreAux srv indicationId fuel (index + 1) total2 (reqs + 1)

/-- `fetchAssociationScore(targetEnsemblId, indicationId)`: start at page
index 0 with `total = 0` and no requests issued. -/
def fetchAssociationScore (srv : Nat → AssocResponse) (indicationId : String) (fuel : Nat) :
    Option (FetchOutcome × Nat) :=
  fetchAssociationScoreAux srv indicationId fuel 0 0 0

/-- The pagination loop terminates against this server: some finite fuel
suffices for the run to produce an outcome. -/
def FetchTerminates (srv : Nat → AssocResponse) (indicationId : String) : Prop :=
  ∃ fuel, (fetchAssociationScore srv indicationId fuel).isSome

/-- The enrichment site in `POST`: `try` the fetch and store its score, on
`catch` log and store `null`. -/
def assocScoreEnrich (srv : Nat → AssocResponse) (indicationId : String) (fuel : Nat) :
    Option (Option Rat) :=
  match fetchAssociationScore srv indicationId fuel with
  | some (.completed sc, _) => some sc
  | some (.threw _, _) => some none
  | none => none

/-- A server whose pages are all successful and non-empty, never contain the
sought indication, and report a total count that grows faster than the pages
consumed — each page `i` reports `count = (i+2)*50`. -/
def badAssocServer (i : Nat) : AssocResponse :=
  .success (some ⟨some ((i + 2) * 50), [⟨some 1, some ("OTHER")⟩]⟩)

/-- `INDICATIONS` from `src/lib/indications.ts` (id, label). -/
def INDICATIONS : List (String × String) := [("EFO_0000565", "Leukemia")]

/-- `isValidIndication` from `src/lib/indications.ts`. -/
def isValidIndication (i : String) : Bool :=
  INDICATIONS.any (fun o => o.1 == i)

/-- Outcome of the enrichment handler's `indication_id` check. -/
inductive GateResult where
  | rejected400
  | accepted (i : String)
  deriving DecidableEq

/-- The `indication_id` validation of the enrichment handler: read the form
field (`null` coalesced to the empty string), trim, reject with 400 when empty
or outside the allow-list.  It runs before the files are parsed and before any
insert. -/
def indicationGate (field : Option String) : GateResult :=
  let indicationId := jsTrim (field.getD (""))
  if indicationId = "" ∨ isValidIndication indicationId = false then .rejected400
  else .accepted indicationId

theorem jsTrimData_eq (l : List Char) :
    jsTrimData l = List.rdropWhile jsWhitespace (l.dropWhile jsWhitespace) := rfl

theorem jsTrim_data (s : String) : (jsTrim s).data = jsTrimData s.data := rfl

theorem dropWhile_head_false (p : Char → Bool) (l : List Char) (c : Char) (cs : List Char)
    (h : List.dropWhile p l = c :: cs) : p c = false := by
  induction l with
  | nil => simp at h
  | cons a as ih =>
    rw [List.dropWhile_cons] at h
    by_cases hp : p a
    · rw [if_pos hp] at h
      exact ih h
    · rw [if_neg hp] at h
      obtain ⟨rfl, -⟩ := List.cons.inj h
      simpa using hp

theorem dropWhile_jsTrimData (l : List Char) :
    List.dropWhile jsWhitespace (jsTrimData l) = jsTrimData l := by
  rw [jsTrimData_eq]
  rcases hr : List.rdropWhile jsWhitespace (l.dropWhile jsWhitespace) with _ | ⟨c, cs⟩
  · rfl
  · obtain ⟨t, ht⟩ := List.rdropWhile_prefix jsWhitespace (l.dropWhile jsWhitespace)
    rw [hr] at ht
    have hpc : jsWhitespace c = false :=
      dropWhile_head_false jsWhitespace l c (cs ++ t) (by rw [← ht]; simp)
    rw [List.dropWhile_cons, hpc]
    simp

theorem jsTrimData_idem (l : List Char) : jsTrimData (jsTrimData l) = jsTrimData l := by
  conv_lhs => rw [jsTrimData_eq (jsTrimData l), dropWhile_jsTrimData]
  rw [jsTrimData_eq l]
  exact List.rdropWhile_idempotent _ _

theorem jsTrim_idem (s : String) : jsTrim (jsTrim s) = jsTrim s := by
  apply String.ext
  rw [jsTrim_data, jsTrim_data]
  exact jsTrimData_idem s.data

theorem rdropWhile_append_rtakeWhile (p : Char → Bool) (x : List Char) :
    List.rdropWhile p x ++ List.rtakeWhile p x = x := by
  rw [List.rdropWhile, List.rtakeWhile, ← List.reverse_append,
    List.takeWhile_append_dropWhile, List.reverse_reverse]

theorem mem_jsTrimData (l : List Char) (c : Char) (hc : c ∈ l)
    (hw : jsWhitespace c = false) : c ∈ jsTrimData l := by
  rw [jsTrimData_eq]
  have h1 : c ∈ l.dropWhile jsWhitespace := by
    have hsplit := List.takeWhile_append_dropWhile jsWhitespace l
    rcases List.mem_append.mp (hsplit ▸ hc) with h | h
    · have := List.mem_takeWhile_imp h
      rw [hw] at this
      exact absurd this (by simp)
    · exact h
  have hsplit2 := rdropWhile_append_rtakeWhile jsWhitespace (l.dropWhile jsWhitespace)
  rcases List.mem_append.mp (hsplit2 ▸ h1) with h | h
  · exact h
  · have := List.mem_rtakeWhile_imp h
    rw [hw] at this
    exact absurd this (by simp)

theorem jsTrim_ne_empty (s : String) (c : Char) (hc : c ∈ s.data)
    (hw : jsWhitespace c = false) : jsTrim s ≠ "" := by
  intro h
  have hdata : jsTrimData s.data = [] := by
    have := congrArg String.data h
    rw [jsTrim_data] at this
    exact this
  have hmem := mem_jsTrimData s.data c hc hw
  rw [hdata] at hmem
  exact absurd hmem (List.not_mem_nil c)

theorem jsTrimData_eq_self (l : List Char) (h : ∀ c ∈ l, jsWhitespace c = false) :
    jsTrimData l = l := by
  rw [jsTrimData_eq]
  have h1 : List.dropWhile jsWhitespace l = l := by
    apply List.dropWhile_eq_self_iff.mpr
    intro hl
    rw [h _ (List.get_mem l 0 hl)]
    simp
  rw [h1]
  apply List.rdropWhile_eq_self_iff.mpr
  intro hl
  rw [h _ (List.getLast_mem hl)]
  simp

theorem jsTrim_of_forall_not_ws (s : String) (h : ∀ c ∈ s.data, jsWhitespace c = false) :
    jsTrim s = s := by
  apply String.ext
  rw [jsTrim_data]
  exact jsTrimData_eq_self s.data h

/-- C10: the `input_hash` preimage `smiles|sequence|modelVersion` is not an
injective encoding of the pair: the distinct pairs (smiles `A|B`, sequence `C`)
and (smiles `A`, sequence `B|C`) build the same preimage under any model
version, so their hashes coincide (and are present), letting the dedup check
treat distinct ligand-target pairs as the same prior result. -/
theorem inputHash_collision (hash : String → String) (modelVersion : String) :
    mkInputHash hash ("A|B") ("C") modelVersion =
      mkInputHash hash ("A") ("B|C") modelVersion ∧
    (("A|B", "C") : String × String) ≠ ("A", "B|C") ∧
    (mkInputHash hash ("A|B") ("C") modelVersion).isSome := by
  refine ⟨?_, by decide, ?_⟩
  · rw [mkInputHash, mkInputHash, if_pos ⟨by decide, by decide⟩,
      if_pos ⟨by decide, by decide⟩]
    have hx : ("A|B" ++ "|" ++ "C" ++ "|" : String) = "A" ++ "|" ++ "B|C" ++ "|" := by decide
    rw [Option.some.injEq, hx]
  · rw [mkInputHash, if_pos ⟨by decide, by decide⟩]
    rfl

/-- C10 exercised at a concrete hash function and model version. -/
theorem inputHash_collision_witness :
    mkInputHash id ("A|B") ("C") ("v1") = mkInputHash id ("A") ("B|C") ("v1") :=
  (inputHash_collision id ("v1")).1

/-- C2: a pair's `input_hash` is present iff both the trimmed smiles and the
trimmed sequence are non-empty (no length condition, so a too-long sequence
still gets a hash); it is a pure function of the trimmed smiles, trimmed
sequence and model version; and for a collision-free digest, changing the
model version always changes the hash. -/
theorem inputHash_presence_determinism (hash : String → String) :
    (∀ modelVersion l t, (mkPair hash modelVersion l t).input_hash.isSome ↔
        (jsTrim l.smiles ≠ "" ∧ jsTrim t.sequence ≠ "")) ∧
    (∀ modelVersion s1 n1 q1 g1 s2 n2 q2 g2, jsTrim s1 = jsTrim s2 → jsTrim q1 = jsTrim q2 →
      (mkPair hash modelVersion (mkLigand s1 n1) (mkTarget q1 g1)).input_hash =
        (mkPair hash modelVersion (mkLigand s2 n2) (mkTarget q2 g2)).input_hash) ∧
    (Function.Injective hash → ∀ s q mv1 mv2, jsTrim s ≠ "" → jsTrim q ≠ "" → mv1 ≠ mv2 →
      mkInputHash hash s q mv1 ≠ mkInputHash hash s q mv2) := by
  refine ⟨?_, ?_, ?_⟩
  · intro modelVersion l t
    rw [mkPair]
    by_cases h : jsTrim l.smiles ≠ "" ∧ jsTrim t.sequence ≠ ""
    · rw [mkInputHash, if_pos h]
      simpa using h
    · rw [mkInputHash, if_neg h]
      simpa using h
  · intro modelVersion s1 n1 q1 g1 s2 n2 q2 g2 h1 h2
    simp only [mkPair, mkLigand, mkTarget, mkInputHash, h1, h2]
  · intro hinj s q mv1 mv2 hs hq hne h
    rw [mkInputHash, mkInputHash, if_pos ⟨hs, hq⟩, if_pos ⟨hs, hq⟩,
      Option.some.injEq] at h
    have hdata := congrArg String.data (hinj h)
    simp only [String.data_append, List.append_assoc] at hdata
    exact hne (String.ext
      (List.append_cancel_left (List.append_cancel_left
        (List.append_cancel_left (List.append_cancel_left hdata)))))

/-- C2 exercised with the identity digest: changing the model version from
`v1` to `v2` changes the hash of a concrete pair. -/
theorem inputHash_presence_determinism_witness :
    mkInputHash id ("CCO") ("MKT") ("v1") ≠ mkInputHash id ("CCO") ("MKT") ("v2") :=
  (inputHash_presence_determinism id).2.2 (fun _ _ hab => hab)
    ("CCO") ("MKT") ("v1") ("v2") (by decide) (by decide) (by decide)

/-- C4: the two sequence warnings are mutually exclusive on every generated
pair: an empty trimmed sequence yields `sequence_missing` and never
`sequence_too_long`; a non-empty trimmed sequence longer than 1280 yields
`sequence_too_long` and never `sequence_missing`. -/
theorem sequence_warnings_exclusive (hash : String → String) (modelVersion : String)
    (l : Ligand) (rawSeq rawGene : String) :
    (jsTrim rawSeq = "" →
      WARNING_SEQUENCE_MISSING ∈ (mkPair hash modelVersion l (mkTarget rawSeq rawGene)).warnings ∧
      WARNING_SEQUENCE_TOO_LONG ∉ (mkPair hash modelVersion l (mkTarget rawSeq rawGene)).warnings) ∧
    (jsTrim rawSeq ≠ "" → (jsTrim rawSeq).length > 1280 →
      WARNING_SEQUENCE_TOO_LONG ∈ (mkPair hash modelVersion l (mkTarget rawSeq rawGene)).warnings ∧
      WARNING_SEQUENCE_MISSING ∉ (mkPair hash modelVersion l (mkTarget rawSeq rawGene)).warnings) := by
  have hw : (mkPair hash modelVersion l (mkTarget rawSeq rawGene)).warnings =
      computeWarnings l.smiles (jsTrim rawSeq) := rfl
  rw [hw]
  unfold computeWarnings
  rw [jsTrim_idem]
  constructor
  · intro h
    rw [if_pos h]
    constructor
    · exact List.mem_append_right _ (by simp)
    · intro hmem
      rcases List.mem_append.mp hmem with hm | hm
      · by_cases hs : jsTrim l.smiles = "" <;>
          simp [hs, WARNING_SEQUENCE_TOO_LONG, WARNING_INVALID_SMILES] at hm
      · simp [WARNING_SEQUENCE_TOO_LONG, WARNING_SEQUENCE_MISSING] at hm
  · intro h hlen
    rw [if_neg h, if_pos hlen]
    constructor
    · exact List.mem_append_right _ (by simp)
    · intro hmem
      rcases List.mem_append.mp hmem with hm | hm
      · by_cases hs : jsTrim l.smiles = "" <;>
          simp [hs, WARNING_SEQUENCE_MISSING, WARNING_INVALID_SMILES] at hm
      · simp [WARNING_SEQUENCE_MISSING, WARNING_SEQUENCE_TOO_LONG] at hm

/-- C4 exercised on a concrete empty sequence and a concrete 1281-character
sequence. -/
theorem sequence_warnings_exclusive_witness :
    (WARNING_SEQUENCE_MISSING ∈
      (mkPair id ("v") ⟨"CCO", ""⟩ (mkTarget ("") (""))).warnings ∧
     WARNING_SEQUENCE_TOO_LONG ∉
      (mkPair id ("v") ⟨"CCO", ""⟩ (mkTarget ("") (""))).warnings) ∧
    (WARNING_SEQUENCE_TOO_LONG ∈
      (mkPair id ("v") ⟨"CCO", ""⟩
        (mkTarget (String.mk (List.replicate 1281 'M')) (""))).warnings ∧
     WARNING_SEQUENCE_MISSING ∉
      (mkPair id ("v") ⟨"CCO", ""⟩
        (mkTarget (String.mk (List.replicate 1281 'M')) (""))).warnings) := by
  have hseq : jsTrim (String.mk (List.replicate 1281 'M')) = String.mk (List.replicate 1281 'M') := by
    apply jsTrim_of_forall_not_ws
    intro c hc
    rw [(List.mem_replicate.mp hc).2]
    decide
  constructor
  · exact (sequence_warnings_exclusive id ("v") ⟨"CCO", ""⟩ ("") ("")).1 (by decide)
  · refine (sequence_warnings_exclusive id ("v") ⟨"CCO", ""⟩
      (String.mk (List.replicate 1281 'M')) ("")).2 ?_ ?_
    · rw [hseq]
      intro hcontra
      have hdata : List.replicate 1281 'M' = ([] : List Char) := congrArg String.data hcontra
      have hlen := congrArg List.length hdata
      rw [List.length_replicate] at hlen
      exact absurd hlen (by decide)
    · rw [hseq]
      show (String.mk (List.replicate 1281 'M')).length > 1280
      have : (String.mk (List.replicate 1281 'M')).length = 1281 := by
        show (List.replicate 1281 'M').length = 1281
        exact List.length_replicate 1281 'M'
      omega

/-- C1: the record builder assigns status by exactly the source's rules, in
order: warning-free pair with a prior done row for its hash gives `done` with
copied affinities and the singleton `previous_result_available` warning set;
otherwise a non-empty warning set gives `failed` with null affinities and the
computed warnings; otherwise `queued` with null affinities and null
warnings. -/
theorem buildRow_status_rules (priorDone : String → Option DoneRun)
    (userId memo now modelVersion : String) (pair : PairCandidate) :
    (∀ hsh prior, pair.warnings = [] → pair.input_hash = some hsh →
      priorDone hsh = some prior →
      (buildRow priorDone userId memo now modelVersion pair).status = "done" ∧
      (buildRow priorDone userId memo now modelVersion pair).affinity_value =
        prior.affinity_value ∧
      (buildRow priorDone userId memo now modelVersion pair).affinity_prob =
        prior.affinity_prob ∧
      (buildRow priorDone userId memo now modelVersion pair).warnings =
        some [WARNING_PREVIOUS_RESULT]) ∧
    (pair.warnings ≠ [] →
      (buildRow priorDone userId memo now modelVersion pair).status = "failed" ∧
      (buildRow priorDone userId memo now modelVersion pair).affinity_value = none ∧
      (buildRow priorDone userId memo now modelVersion pair).affinity_prob = none ∧
      (buildRow priorDone userId memo now modelVersion pair).warnings =
        some pair.warnings) ∧
    (pair.warnings = [] → pair.input_hash.bind priorDone = none →
      (buildRow priorDone userId memo now modelVersion pair).status = "queued" ∧
      (buildRow priorDone userId memo now modelVersion pair).affinity_value = none ∧
      (buildRow priorDone userId memo now modelVersion pair).affinity_prob = none ∧
      (buildRow priorDone userId memo now modelVersion pair).warnings = none) := by
  refine ⟨?_, ?_, ?_⟩
  · intro hsh prior hw hh hp
    simp [buildRow, hh, hp, hw]
  · intro hw
    cases hbind : pair.input_hash.bind priorDone with
    | some prior => simp [buildRow, hbind, hw]
    | none => simp [buildRow, hbind, hw]
  · intro hw hbind
    simp [buildRow, hbind, hw]

/-- C1 exercised on a concrete warning-free pair whose hash has a prior done
entry. -/
theorem buildRow_status_rules_witness :
    (buildRow (fun h => if h = "k" then some ⟨some 1, some 2⟩ else none)
      ("u") ("m") ("t") ("v") ⟨"CCO", "MKT", none, none, some ("k"), []⟩).status =
      "done" := by
  have h := buildRow_status_rules (fun h => if h = "k" then some ⟨some 1, some 2⟩ else none)
    ("u") ("m") ("t") ("v") ⟨"CCO", "MKT", none, none, some ("k"), []⟩
  exact (h.1 ("k") ⟨some 1, some 2⟩ rfl rfl (by simp)).1

theorem flatMap_map_getElem {α β γ : Type} (f : α → β → γ) (as : List α) (bs : List β)
    (i j : Nat) (hi : i < as.length) (hj : j < bs.length)
    (hb : i * bs.length + j < (as.flatMap (fun a => bs.map (f a))).length) :
    (as.flatMap (fun a => bs.map (f a))).get ⟨i * bs.length + j, hb⟩ =
      f (as.get ⟨i, hi⟩) (bs.get ⟨j, hj⟩) := by
  induction as generalizing i with
  | nil => simp at hi
  | cons a as ih =>
    have hsplit : (a :: as).flatMap (fun a => bs.map (f a)) =
        bs.map (f a) ++ as.flatMap (fun a => bs.map (f a)) := by
      simp [List.flatMap_cons]
    rw [List.get_of_eq hsplit ⟨i * bs.length + j, hb⟩]
    have hb2 : i * bs.length + j <
        (bs.map (f a) ++ as.flatMap (fun a => bs.map (f a))).length := by
      rw [← hsplit]; exact hb
    cases i with
    | zero =>
      rw [List.get_eq_getElem]
      simp only [Nat.zero_mul, Nat.zero_add]
      rw [List.getElem_append_left (by simpa using hj)]
      simp
    | succ i' =>
      have hi' : i' < as.length := by simpa using hi
      have hx : (i' + 1) * bs.length + j =
          (bs.map (f a)).length + (i' * bs.length + j) := by
        rw [List.length_map]; ring
      have hb' : i' * bs.length + j < (as.flatMap (fun a => bs.map (f a))).length := by
        rw [List.length_append, hx] at hb2
        exact Nat.lt_of_add_lt_add_left hb2
      have h1 : (bs.map (f a)).length ≤ (i' + 1) * bs.length + j := by
        rw [hx]; exact Nat.le_add_right _ _
      rw [List.get_eq_getElem]
      rw [List.getElem_append_right h1]
      have h2 : (i' + 1) * bs.length + j - (bs.map (f a)).length =
          i' * bs.length + j := by
        rw [hx]; simp
      have hgoal := ih i' hi' hb'
      rw [List.get_eq_getElem] at hgoal
      simp only [h2]
      rw [hgoal]
      simp

/-- C3: the pair generator on `m` ligands and `n` targets emits exactly `m*n`
candidates, with the candidate at position `i*n + j` built from ligand `i` and
target `j` (ligands outer, targets inner), and distinct index pairs occupy
distinct positions. -/
theorem generatePairs_cross_product (hash : String → String) (modelVersion : String)
    (ligands : List Ligand) (targets : List Target) :
    (generatePairs hash modelVersion ligands targets).length =
      ligands.length * targets.length ∧
    (∀ i j (hi : i < ligands.length) (hj : j < targets.length)
        (hb : i * targets.length + j <
          (generatePairs hash modelVersion ligands targets).length),
      (generatePairs hash modelVersion ligands targets).get
          ⟨i * targets.length + j, hb⟩ =
        mkPair hash modelVersion (ligands.get ⟨i, hi⟩) (targets.get ⟨j, hj⟩)) ∧
    (∀ i1 j1 i2 j2, i1 < ligands.length → j1 < targets.length → i2 < ligands.length →
      j2 < targets.length → i1 * targets.length + j1 = i2 * targets.length + j2 →
      i1 = i2 ∧ j1 = j2) := by
  refine ⟨?_, ?_, ?_⟩
  · induction ligands with
    | nil => simp [generatePairs]
    | cons l ls ih =>
      rw [generatePairs, List.flatMap_cons, List.length_append, List.length_map]
      rw [generatePairs] at ih
      rw [ih]
      simp only [List.length_cons]
      ring
  · intro i j hi hj hb
    exact flatMap_map_getElem (mkPair hash modelVersion) ligands targets i j hi hj hb
  · intro i1 j1 i2 j2 h1 h2 h3 h4 heq
    have hn : 0 < targets.length := Nat.lt_of_le_of_lt (Nat.zero_le j1) h2
    have hj : j1 = j2 := by
      have e1 : (i1 * targets.length + j1) % targets.length = j1 := by
        rw [Nat.mul_comm, Nat.mul_add_mod, Nat.mod_eq_of_lt h2]
      have e2 : (i2 * targets.length + j2) % targets.length = j2 := by
        rw [Nat.mul_comm, Nat.mul_add_mod, Nat.mod_eq_of_lt h4]
      rw [← e1, ← e2, heq]
    refine ⟨?_, hj⟩
    subst hj
    exact Nat.eq_of_mul_eq_mul_right hn (Nat.add_right_cancel heq)

/-- C3 exercised on two concrete ligands and three concrete targets: position
`1*3 + 2` holds the pair of the second ligand and the third target. -/
theorem generatePairs_cross_product_witness :
    (generatePairs id ("v") [⟨"C", "a"⟩, ⟨"O", "b"⟩]
        [⟨"M", "g"⟩, ⟨"K", "h"⟩, ⟨"T", "i"⟩]).get
      ⟨1 * 3 + 2, by decide⟩ = mkPair id ("v") ⟨"O", "b"⟩ ⟨"T", "i"⟩ := by
  have h := generatePairs_cross_product id ("v") [⟨"C", "a"⟩, ⟨"O", "b"⟩]
    [⟨"M", "g"⟩, ⟨"K", "h"⟩, ⟨"T", "i"⟩]
  exact h.2.1 1 2 (by decide) (by decide) (by decide)

theorem parseCsvAux_escaped (cs : List Char) (field : List Char) (row : List String)
    (rows : List (List String)) :
    parseCsvAux (csvEscapeQuotes cs ++ ['"']) true field row rows =
      parseCsvAux [] false (field ++ cs) row rows := by
  induction cs generalizing field with
  | nil => simp [csvEscapeQuotes, parseCsvAux]
  | cons c cs ih =>
    by_cases hc : c = '"'
    · subst hc
      rw [csvEscapeQuotes, if_pos rfl]
      rw [List.cons_append, List.cons_append]
      rw [show parseCsvAux ('"' :: '"' :: (csvEscapeQuotes cs ++ ['"'])) true field row rows =
          parseCsvAux (csvEscapeQuotes cs ++ ['"']) true (field ++ ['"']) row rows from by
        simp [parseCsvAux]]
      rw [ih]
      simp
    · rw [csvEscapeQuotes, if_neg hc]
      rw [List.cons_append]
      rw [show parseCsvAux (c :: (csvEscapeQuotes cs ++ ['"'])) true field row rows =
          parseCsvAux (csvEscapeQuotes cs ++ ['"']) true (field ++ [c]) row rows from by
        simp [parseCsvAux, hc]]
      rw [ih]
      simp

/-- C9: quoting round-trip of the tabular parser — for every field containing
the separator, enclosing it in quotes (interior quotes doubled) and re-parsing
it as the single data row under a one-cell header yields the original string
back as the single cell of the single data row. -/
theorem parseCsv_roundtrip_quoted_field (f : String) (hsep : ',' ∈ f.data) :
    parseCsv ("h\n" ++ csvQuote f) = ⟨["h"], [[f]]⟩ := by
  obtain ⟨l⟩ := f
  have hl : l ≠ [] := List.ne_nil_of_mem hsep
  have htrim : jsTrim (String.mk l) ≠ "" :=
    jsTrim_ne_empty (String.mk l) ',' hsep (by decide)
  have hdata : ("h\n" ++ csvQuote (String.mk l)).data =
      'h' :: '\n' :: '"' :: (csvEscapeQuotes l ++ ['"']) := by
    rw [String.data_append]; rfl
  have hrecords :
      parseCsvAux (stripBOM ("h\n" ++ csvQuote (String.mk l)).data) false [] [] [] =
        [[String.mk ['h']], [String.mk l]] := by
    rw [hdata]
    rw [show stripBOM ('h' :: '\n' :: '"' :: (csvEscapeQuotes l ++ ['"'])) =
        'h' :: '\n' :: '"' :: (csvEscapeQuotes l ++ ['"']) from by simp [stripBOM]]
    rw [show parseCsvAux ('h' :: '\n' :: '"' :: (csvEscapeQuotes l ++ ['"'])) false [] [] [] =
        parseCsvAux (csvEscapeQuotes l ++ ['"']) true [] [] [[String.mk ['h']]] from by
      simp [parseCsvAux]]
    rw [parseCsvAux_escaped]
    simp [parseCsvAux, hl]
  have hb1 : (jsTrim (String.mk ['h']) != "") = true := by decide
  have hb2 : (jsTrim (String.mk l) != "") = true := bne_iff_ne.mpr htrim
  simp only [parseCsv, hrecords, List.filter_cons, List.any_cons, List.any_nil, hb1, hb2]
  simp
  decide

/-- C9 exercised on the concrete field `a,b`. -/
theorem parseCsv_roundtrip_quoted_field_witness :
    parseCsv ("h\n" ++ csvQuote ("a,b")) = ⟨[("h" : String)], [[("a,b" : String)]]⟩ :=
  parseCsv_roundtrip_quoted_field ("a,b") (by decide)

theorem scanRows_first_match (indicationId : String) (pre : List AssocRow) (r : AssocRow)
    (post : List AssocRow) (hpre : ∀ r2 ∈ pre, r2.diseaseId ≠ some indicationId)
    (hr : r.diseaseId = some indicationId) :
    scanRows indicationId (pre ++ r :: post) = some r.score := by
  induction pre with
  | nil => simp [scanRows, hr]
  | cons a pre ih =>
    have ha := hpre a (by simp)
    rw [List.cons_append]
    rw [show scanRows indicationId (a :: (pre ++ r :: post)) =
        if a.diseaseId = some indicationId then some a.score
        else scanRows indicationId (pre ++ r :: post) from rfl]
    rw [if_neg ha]
    exact ih (fun r2 hmem => hpre r2 (by simp [hmem]))

theorem fetch_nonterminating_aux (fuel : Nat) :
    ∀ index total reqs,
      fetchAssociationScoreAux badAssocServer ("EFO_0000565") fuel index total reqs =
        none := by
  induction fuel with
  | zero => intro index total reqs; rfl
  | succ fuel ih =>
    intro index total reqs
    have hscan : scanRows ("EFO_0000565") [⟨some 1, some ("OTHER")⟩] = none := by decide
    have hcond : ¬ ((index + 1) * OPENTARGETS_PAGE_SIZE ≥ (index + 2) * 50 ∨
        ([(⟨some 1, some ("OTHER")⟩ : AssocRow)] : List AssocRow) = []) := by
      rw [OPENTARGETS_PAGE_SIZE]
      simp only [not_or]
      exact ⟨by omega, by simp⟩
    rw [show fetchAssociationScoreAux badAssocServer ("EFO_0000565") (fuel + 1)
          index total reqs =
        (if (index + 1) * OPENTARGETS_PAGE_SIZE ≥ (index + 2) * 50 ∨
            ([(⟨some 1, some ("OTHER")⟩ : AssocRow)] : List AssocRow) = [] then
          some (FetchOutcome.completed none, reqs + 1)
        else fetchAssociationScoreAux badAssocServer ("EFO_0000565") fuel (index + 1)
          ((index + 2) * 50) (reqs + 1)) from rfl]
    rw [if_neg hcond]
    exact ih (index + 1) ((index + 2) * 50) (reqs + 1)

/-- C5 counterexample: the pagination loop does not always terminate — against
a server whose every page is successful, non-empty, matchless, and reports an
ever-growing total count, no amount of fuel completes the fetch, i.e. the JS
`while (true)` loop runs forever. -/
theorem fetch_pagination_nonterminating :
    ¬ FetchTerminates badAssocServer ("EFO_0000565") := by
  intro h
  obtain ⟨fuel, hfuel⟩ := h
  rw [fetchAssociationScore, fetch_nonterminating_aux fuel 0 0 0] at hfuel
  simp at hfuel

/-- C5 (amended): the fetcher returns the score of the first returned row
matching the indication and issues no request past that page; with no match it
returns null as soon as a page is empty or `(index+1)*pageSize` reaches the
reported total; and the loop terminates whenever the reported total counts are
bounded by some `B` — fuel `B+1` suffices — which covers any server reporting
a fixed total (but not unbounded growing totals, see the counterexample). -/
theorem fetchAssociationScore_pagination (srv : Nat → AssocResponse)
    (indicationId : String) :
    (∀ fuel index total reqs data sc, srv index = .success data →
      scanRows indicationId ((data.map AssocPageData.rows).getD []) = some sc →
      fetchAssociationScoreAux srv indicationId (fuel + 1) index total reqs =
        some (.completed sc, reqs + 1)) ∧
    (∀ (pre : List AssocRow) r post, (∀ r2 ∈ pre, r2.diseaseId ≠ some indicationId) →
      r.diseaseId = some indicationId →
      scanRows indicationId (pre ++ r :: post) = some r.score) ∧
    (∀ fuel index total reqs data, srv index = .success data →
      scanRows indicationId ((data.map AssocPageData.rows).getD []) = none →
      ((index + 1) * OPENTARGETS_PAGE_SIZE ≥ (data.bind AssocPageData.count).getD total ∨
        (data.map AssocPageData.rows).getD [] = []) →
      fetchAssociationScoreAux srv indicationId (fuel + 1) index total reqs =
        some (.completed none, reqs + 1)) ∧
    (∀ B, (∀ i d c, srv i = .success d → d.bind AssocPageData.count = some c → c ≤ B) →
      ∀ fuel index total reqs, total ≤ B → B + 1 ≤ index + (fuel + 1) →
      (fetchAssociationScoreAux srv indicationId (fuel + 1) index total reqs).isSome) ∧
    (∀ B, (∀ i d c, srv i = .success d → d.bind AssocPageData.count = some c → c ≤ B) →
      (fetchAssociationScore srv indicationId (B + 1)).isSome) := by
  have hterm : ∀ B, (∀ i d c, srv i = .success d → d.bind AssocPageData.count = some c →
      c ≤ B) →
      ∀ fuel index total reqs, total ≤ B → B + 1 ≤ index + (fuel + 1) →
      (fetchAssociationScoreAux srv indicationId (fuel + 1) index total reqs).isSome := by
    intro B hbound fuel
    induction fuel with
    | zero =>
      intro index total reqs htot hidx
      cases hsrv : srv index with
      | httpError s => simp [fetchAssociationScoreAux, hsrv]
      | success data =>
        cases hscan : scanRows indicationId ((data.map AssocPageData.rows).getD []) with
        | some sc => simp [fetchAssociationScoreAux, hsrv, hscan]
        | none =>
          have htot2 : (data.bind AssocPageData.count).getD total ≤ B := by
            cases hc : data.bind AssocPageData.count with
            | none => simpa using htot
            | some c => simpa using hbound index data c hsrv hc
          have hcond : (index + 1) * OPENTARGETS_PAGE_SIZE ≥
              (data.bind AssocPageData.count).getD total := by
            rw [OPENTARGETS_PAGE_SIZE]
            have hBi : B ≤ index := by omega
            have := Nat.le_trans htot2 hBi
            omega
          simp [fetchAssociationScoreAux, hsrv, hscan, hcond]
    | succ fuel ih =>
      intro index total reqs htot hidx
      cases hsrv : srv index with
      | httpError s => simp [fetchAssociationScoreAux, hsrv]
      | success data =>
        cases hscan : scanRows indicationId ((data.map AssocPageData.rows).getD []) with
        | some sc => simp [fetchAssociationScoreAux, hsrv, hscan]
        | none =>
          have htot2 : (data.bind AssocPageData.count).getD total ≤ B := by
            cases hc : data.bind AssocPageData.count with
            | none => simpa using htot
            | some c => simpa using hbound index data c hsrv hc
          by_cases hcond : (index + 1) * OPENTARGETS_PAGE_SIZE ≥
              (data.bind AssocPageData.count).getD total ∨
              (data.map AssocPageData.rows).getD [] = []
          · simp [fetchAssociationScoreAux, hsrv, hscan, hcond]
          · have hnext := ih (index + 1) ((data.bind AssocPageData.count).getD total)
              (reqs + 1) htot2 (by omega)
            simpa [fetchAssociationScoreAux, hsrv, hscan, hcond] using hnext
  refine ⟨?_, ?_, ?_, hterm, ?_⟩
  · intro fuel index total reqs data sc hsrv hscan
    simp [fetchAssociationScoreAux, hsrv, hscan]
  · intro pre r post hpre hr
    exact scanRows_first_match indicationId pre r post hpre hr
  · intro fuel index total reqs data hsrv hscan hcond
    simp [fetchAssociationScoreAux, hsrv, hscan, hcond]
  · intro B hbound
    rw [fetchAssociationScore]
    exact hterm B hbound B 0 0 0 (Nat.zero_le B) (by omega)

/-- C5 exercised: a first page whose single row matches the indication makes
the fetch return that row's score with exactly one request issued. -/
theorem fetchAssociationScore_pagination_witness :
    fetchAssociationScoreAux
      (fun _ => .success (some ⟨some 1, [⟨some 1, some ("EFO_0000565")⟩]⟩))
      ("EFO_0000565") 1 0 0 0 = some (.completed (some 1), 1) :=
  (fetchAssociationScore_pagination
      (fun _ => .success (some ⟨some 1, [⟨some 1, some ("EFO_0000565")⟩]⟩))
      ("EFO_0000565")).1 0 0 0 0
    (some ⟨some 1, [⟨some 1, some ("EFO_0000565")⟩]⟩) (some 1) rfl (by decide)

/-- C6: a non-success page response makes the whole fetch abort at that very
request (the erroring request is the last one issued, no retry), and the
handler's catch substitutes `null` for the pair, so no exception reaches the
submission. -/
theorem fetch_httpError_aborts :
    (∀ (srv : Nat → AssocResponse) (indicationId : String) (fuel index total reqs s : Nat),
      srv index = .httpError s →
      fetchAssociationScoreAux srv indicationId (fuel + 1) index total reqs =
        some (.threw s, reqs + 1)) ∧
    (∀ (srv : Nat → AssocResponse) (indicationId : String) (fuel s n : Nat),
      fetchAssociationScore srv indicationId fuel = some (.threw s, n) →
      assocScoreEnrich srv indicationId fuel = some none) := by
  constructor
  · intro srv ind fuel index total reqs s h
    simp [fetchAssociationScoreAux, h]
  · intro srv ind fuel s n h
    rw [assocScoreEnrich, h]

/-- C6 exercised on a server whose very first page returns HTTP 500. -/
theorem fetch_httpError_aborts_witness :
    fetchAssociationScoreAux (fun _ => .httpError 500) ("EFO_0000565") 3 0 0 0 =
      some (.threw 500, 1) ∧
    assocScoreEnrich (fun _ => .httpError 500) ("EFO_0000565") 3 = some none := by
  have h := fetch_httpError_aborts
  refine ⟨h.1 (fun _ => .httpError 500) ("EFO_0000565") 2 0 0 0 500 rfl, ?_⟩
  exact h.2 (fun _ => .httpError 500) ("EFO_0000565") 3 500 1
    (h.1 (fun _ => .httpError 500) ("EFO_0000565") 2 0 0 0 500 rfl)

theorem mapGet_nil (k : String) : mapGet [] k = none := rfl

theorem mapGet_cons (p : String × String) (m : List (String × String)) (k : String) :
    mapGet (p :: m) k = if p.1 == k then some p.2 else mapGet m k := by
  cases h : (p.1 == k) <;> simp [mapGet, List.find?_cons, h]

theorem mapGet_overwrite_ne (m : List (String × String)) (k v k' : String) (hne : k' ≠ k) :
    mapGet (m.map (fun p => if p.1 == k then (k, v) else p)) k' = mapGet m k' := by
  induction m with
  | nil => rfl
  | cons p m ih =>
    rw [List.map_cons, mapGet_cons, mapGet_cons]
    by_cases hp : (p.1 == k) = true
    · rw [if_pos hp]
      have h1 : ((k, v).1 == k') = false := by
        simp only [beq_eq_false_iff_ne, ne_eq]
        exact fun h => hne h.symm
      have h2 : (p.1 == k') = false := by
        rw [beq_iff_eq] at hp
        simp only [beq_eq_false_iff_ne, ne_eq, hp]
        exact fun h => hne h.symm
      rw [h1, h2, ih]
      simp
    · rw [if_neg hp, ih]

theorem mapGet_overwrite_self (m : List (String × String)) (k v : String)
    (h : m.any (fun p => p.1 == k) = true) :
    mapGet (m.map (fun p => if p.1 == k then (k, v) else p)) k = some v := by
  induction m with
  | nil => simp at h
  | cons p m ih =>
    rw [List.map_cons, mapGet_cons]
    by_cases hp : (p.1 == k) = true
    · rw [if_pos hp]
      simp
    · rw [if_neg hp]
      have h2 : (p.1 == k) = false := by simpa using hp
      rw [h2]
      have hm : m.any (fun p => p.1 == k) = true := by
        rw [List.any_cons, h2] at h
        simpa using h
      simpa using ih hm

theorem mapGet_append_single (m : List (String × String)) (k v k' : String) :
    mapGet (m ++ [(k, v)]) k' =
      (match mapGet m k' with
       | some r => some r
       | none => if (k == k') then some v else none) := by
  induction m with
  | nil =>
    rw [List.nil_append, mapGet_cons, mapGet_nil]
  | cons p m ih =>
    rw [List.cons_append, mapGet_cons, mapGet_cons]
    by_cases hp : (p.1 == k') = true
    · rw [if_pos hp, if_pos hp]
    · rw [if_neg hp, if_neg hp, ih]

theorem mapGet_mapSet (m : List (String × String)) (k v k' : String) :
    mapGet (mapSet m k v) k' = if k' = k then some v else mapGet m k' := by
  rw [mapSet]
  by_cases hany : m.any (fun p => p.1 == k) = true
  · rw [if_pos hany]
    by_cases hk : k' = k
    · subst hk
      rw [if_pos rfl]
      exact mapGet_overwrite_self m k' v hany
    · rw [if_neg hk]
      exact mapGet_overwrite_ne m k v k' hk
  · rw [if_neg hany, mapGet_append_single]
    by_cases hk : k' = k
    · subst hk
      rw [if_pos rfl]
      have hnone : mapGet m k' = none := by
        rw [mapGet, List.find?_eq_none.mpr ?h]
        · rfl
        · intro q hq hqq
          exact hany (List.any_eq_true.mpr ⟨q, hq, hqq⟩)
      rw [hnone]
      simp
    · rw [if_neg hk]
      have hkk : (k == k') = false := by
        simp only [beq_eq_false_iff_ne, ne_eq]
        exact fun h => hk h.symm
      cases hget : mapGet m k' <;> simp [hget, hkk]

theorem mapGet_none_of_no_key (m : List (String × String)) (k : String)
    (h : ∀ kv ∈ m, kv.1 ≠ k) : mapGet m k = none := by
  rw [mapGet, List.find?_eq_none.mpr ?h]
  · rfl
  · intro kv hkv hb
    exact h kv hkv (by simpa using hb)

theorem resolveFoldl_mapGet_preserved (symbols : List String)
    (acc : List (String × String) × List String) (k i : String)
    (hk : normalizeEnsemblId k = some i) (hacc : mapGet acc.1 k = some i) :
    mapGet (List.foldl resolveStep acc symbols).1 k = some i := by
  induction symbols generalizing acc with
  | nil => exact hacc
  | cons raw symbols ih =>
    rw [List.foldl_cons]
    apply ih
    by_cases h0 : jsTrim raw = ""
    · rw [show resolveStep acc raw = acc from by simp [resolveStep, h0]]
      exact hacc
    · cases hn : normalizeEnsemblId (jsTrim raw) with
      | none =>
        rw [show resolveStep acc raw = (acc.1, acc.2 ++ [jsTrim raw]) from by
          simp [resolveStep, h0, hn]]
        exact hacc
      | some direct =>
        rw [show resolveStep acc raw = (mapSet acc.1 (jsTrim raw) direct, acc.2) from by
          simp [resolveStep, h0, hn]]
        show mapGet (mapSet acc.1 (jsTrim raw) direct) k = some i
        rw [mapGet_mapSet]
        by_cases hkk : k = jsTrim raw
        · rw [if_pos hkk]
          rw [hkk, hn] at hk
          exact hk
        · rw [if_neg hkk]
          exact hacc

theorem resolveFoldl_mapGet_established (symbols : List String) (s i : String)
    (hs : s ∈ symbols) (hne : jsTrim s ≠ "")
    (hnorm : normalizeEnsemblId (jsTrim s) = some i) :
    ∀ acc, mapGet (List.foldl resolveStep acc symbols).1 (jsTrim s) = some i := by
  induction symbols with
  | nil => simp at hs
  | cons raw symbols ih =>
    intro acc
    rw [List.foldl_cons]
    rcases List.mem_cons.mp hs with rfl | hmem
    · apply resolveFoldl_mapGet_preserved symbols _ _ i hnorm
      rw [show resolveStep acc s = (mapSet acc.1 (jsTrim s) i, acc.2) from by
        simp [resolveStep, hne, hnorm]]
      show mapGet (mapSet acc.1 (jsTrim s) i) (jsTrim s) = some i
      rw [mapGet_mapSet, if_pos rfl]
    · exact ih hmem _

theorem resolveFoldl_pending (symbols : List String)
    (acc : List (String × String) × List String) (p : String)
    (hp : p ∈ (List.foldl resolveStep acc symbols).2) :
    p ∈ acc.2 ∨ (normalizeEnsemblId p = none ∧ p ≠ "") := by
  induction symbols generalizing acc with
  | nil => exact Or.inl hp
  | cons raw symbols ih =>
    rw [List.foldl_cons] at hp
    rcases ih (resolveStep acc raw) hp with h | h
    · by_cases h0 : jsTrim raw = ""
      · rw [show resolveStep acc raw = acc from by simp [resolveStep, h0]] at h
        exact Or.inl h
      · cases hn : normalizeEnsemblId (jsTrim raw) with
        | none =>
          rw [show resolveStep acc raw = (acc.1, acc.2 ++ [jsTrim raw]) from by
            simp [resolveStep, h0, hn]] at h
          rcases List.mem_append.mp h with h2 | h2
          · exact Or.inl h2
          · right
            have : p = jsTrim raw := by simpa using h2
            rw [this]
            exact ⟨hn, h0⟩
        | some direct =>
          rw [show resolveStep acc raw = (mapSet acc.1 (jsTrim raw) direct, acc.2) from by
            simp [resolveStep, h0, hn]] at h
          exact Or.inl h
    · exact Or.inr h

theorem resolveFoldl_pending_mono (symbols : List String) (p : String) :
    ∀ acc, p ∈ acc.2 → p ∈ (List.foldl resolveStep acc symbols).2 := by
  induction symbols with
  | nil => intro acc hp; exact hp
  | cons raw symbols ih =>
    intro acc hp
    rw [List.foldl_cons]
    apply ih
    by_cases h0 : jsTrim raw = ""
    · rw [show resolveStep acc raw = acc from by simp [resolveStep, h0]]
      exact hp
    · cases hn : normalizeEnsemblId (jsTrim raw) with
      | none =>
        rw [show resolveStep acc raw = (acc.1, acc.2 ++ [jsTrim raw]) from by
          simp [resolveStep, h0, hn]]
        exact List.mem_append_left _ hp
      | some direct =>
        rw [show resolveStep acc raw = (mapSet acc.1 (jsTrim raw) direct, acc.2) from by
          simp [resolveStep, h0, hn]]
        exact hp

theorem resolveFoldl_pending_mem (symbols : List String) (s : String) (hs : s ∈ symbols)
    (hne : jsTrim s ≠ "") (hnorm : normalizeEnsemblId (jsTrim s) = none) :
    ∀ acc, jsTrim s ∈ (List.foldl resolveStep acc symbols).2 := by
  induction symbols with
  | nil => simp at hs
  | cons raw symbols ih =>
    intro acc
    rw [List.foldl_cons]
    rcases List.mem_cons.mp hs with rfl | hmem
    · apply resolveFoldl_pending_mono
      rw [show resolveStep acc s = (acc.1, acc.2 ++ [jsTrim s]) from by
        simp [resolveStep, hne, hnorm]]
      exact List.mem_append_right _ (by simp)
    · exact ih hmem _

theorem resolveFoldl_keys (symbols : List String)
    (acc : List (String × String) × List String)
    (hacc : ∀ kv ∈ acc.1, normalizeEnsemblId kv.1 = some kv.2) :
    ∀ kv ∈ (List.foldl resolveStep acc symbols).1, normalizeEnsemblId kv.1 = some kv.2 := by
  induction symbols generalizing acc with
  | nil => exact hacc
  | cons raw symbols ih =>
    rw [List.foldl_cons]
    apply ih
    intro kv hkv
    by_cases h0 : jsTrim raw = ""
    · rw [show resolveStep acc raw = acc from by simp [resolveStep, h0]] at hkv
      exact hacc kv hkv
    · cases hn : normalizeEnsemblId (jsTrim raw) with
      | none =>
        rw [show resolveStep acc raw = (acc.1, acc.2 ++ [jsTrim raw]) from by
          simp [resolveStep, h0, hn]] at hkv
        exact hacc kv hkv
      | some direct =>
        rw [show resolveStep acc raw = (mapSet acc.1 (jsTrim raw) direct, acc.2) from by
          simp [resolveStep, h0, hn]] at hkv
        show normalizeEnsemblId kv.1 = some kv.2
        have hmem : kv ∈ mapSet acc.1 (jsTrim raw) direct := hkv
        rw [mapSet] at hmem
        by_cases hany : acc.1.any (fun p => p.1 == jsTrim raw) = true
        · rw [if_pos hany] at hmem
          obtain ⟨q, hq, hqe⟩ := List.mem_map.mp hmem
          by_cases hqk : (q.1 == jsTrim raw) = true
          · rw [if_pos hqk] at hqe
            rw [← hqe]
            exact hn
          · rw [if_neg hqk] at hqe
            rw [← hqe]
            exact hacc q hq
        · rw [if_neg hany] at hmem
          rcases List.mem_append.mp hmem with h2 | h2
          · exact hacc kv h2
          · have : kv = (jsTrim raw, direct) := by simpa using h2
            rw [this]
            exact hn

theorem applyRemote_mapGet_ne (payload : String → Option String) (k : String)
    (pending : List String) (hk : ∀ sym ∈ pending, sym ≠ k) :
    ∀ resolved, mapGet (applyRemote payload resolved pending) k = mapGet resolved k := by
  induction pending with
  | nil => intro resolved; rfl
  | cons sym pending ih =>
    intro resolved
    rw [applyRemote, List.foldl_cons]
    have hstep : mapGet
        (match payload sym with
         | some i => mapSet resolved sym i
         | none => resolved) k = mapGet resolved k := by
      cases hp : payload sym with
      | none => rfl
      | some i =>
        show mapGet (mapSet resolved sym i) k = mapGet resolved k
        rw [mapGet_mapSet, if_neg ?hne]
        exact fun h => hk sym (by simp) h.symm
    have ihs := ih (fun sym2 hmem => hk sym2 (by simp [hmem]))
      (match payload sym with
       | some i => mapSet resolved sym i
       | none => resolved)
    rw [applyRemote] at ihs
    rw [ihs, hstep]

theorem resolveFirstPass_eq (symbols : List String) :
    resolveFirstPass symbols = List.foldl resolveStep ([], []) symbols := rfl

/-- C7: the identifier resolver maps every non-empty trimmed symbol matching
the canonical pattern directly and keeps it out of the remote batch; every
other non-blank symbol lands in the (single) batch; and when the batched
lookup fails (transport error or non-success response, modelled as `remote =
none`) the whole batch is left unresolved — the result map simply lacks those
symbols, with no error reaching the caller (the resolver is a total
function). -/
theorem resolveEnsemblIds_direct_and_failopen (symbols : List String) :
    (∀ s i, s ∈ symbols → jsTrim s ≠ "" → normalizeEnsemblId (jsTrim s) = some i →
      (jsTrim s) ∉ (resolveFirstPass symbols).2 ∧
      ∀ remote, mapGet (resolveEnsemblIds remote symbols) (jsTrim s) = some i) ∧
    (∀ s, s ∈ symbols → jsTrim s ≠ "" → normalizeEnsemblId (jsTrim s) = none →
      jsTrim s ∈ (resolveFirstPass symbols).2) ∧
    (∀ p, p ∈ (resolveFirstPass symbols).2 →
      mapGet (resolveEnsemblIds none symbols) p = none) := by
  have hpend_inv : ∀ p ∈ (resolveFirstPass symbols).2, normalizeEnsemblId p = none := by
    intro p hp
    rw [resolveFirstPass_eq] at hp
    rcases resolveFoldl_pending symbols ([], []) p hp with h | h
    · simp at h
    · exact h.1
  have hkeys : ∀ kv ∈ (resolveFirstPass symbols).1, normalizeEnsemblId kv.1 = some kv.2 := by
    rw [resolveFirstPass_eq]
    exact resolveFoldl_keys symbols ([], []) (by simp)
  have hnone_eq : resolveEnsemblIds none symbols = (resolveFirstPass symbols).1 := by
    rw [resolveEnsemblIds]
    by_cases h : (resolveFirstPass symbols).2 = [] <;> simp [h]
  refine ⟨?_, ?_, ?_⟩
  · intro s i hs hne hnorm
    have hnotpend : (jsTrim s) ∉ (resolveFirstPass symbols).2 := by
      intro hmem
      rw [hpend_inv _ hmem] at hnorm
      exact Option.noConfusion hnorm
    refine ⟨hnotpend, ?_⟩
    intro remote
    have hfp : mapGet (resolveFirstPass symbols).1 (jsTrim s) = some i := by
      rw [resolveFirstPass_eq]
      exact resolveFoldl_mapGet_established symbols s i hs hne hnorm ([], [])
    cases remote with
    | none => rw [hnone_eq]; exact hfp
    | some payload =>
      have hse : resolveEnsemblIds (some payload) symbols =
          (if (resolveFirstPass symbols).2 = [] then (resolveFirstPass symbols).1
           else applyRemote payload (resolveFirstPass symbols).1
             (resolveFirstPass symbols).2) := rfl
      rw [hse]
      by_cases hp : (resolveFirstPass symbols).2 = []
      · rw [if_pos hp]; exact hfp
      · rw [if_neg hp]
        have hsyms : ∀ sym ∈ (resolveFirstPass symbols).2, sym ≠ jsTrim s := by
          intro sym hmem heq
          exact hnotpend (heq ▸ hmem)
        rw [applyRemote_mapGet_ne payload (jsTrim s) (resolveFirstPass symbols).2 hsyms
          (resolveFirstPass symbols).1]
        exact hfp
  · intro s hs hne hnorm
    rw [resolveFirstPass_eq]
    exact resolveFoldl_pending_mem symbols s hs hne hnorm ([], [])
  · intro p hp
    rw [hnone_eq]
    apply mapGet_none_of_no_key
    intro kv hkv heq
    have h1 := hkeys kv hkv
    rw [heq, hpend_inv p hp] at h1
    exact Option.noConfusion h1

/-- C7 exercised: a canonical id with a version suffix resolves directly (the
suffix stripped), and on remote failure the plain gene symbol stays
unresolved. -/
theorem resolveEnsemblIds_direct_and_failopen_witness :
    mapGet (resolveEnsemblIds none [("ENSG00000141510.5"), ("TP53")])
      ("ENSG00000141510.5") = some ("ENSG00000141510") ∧
    mapGet (resolveEnsemblIds none [("ENSG00000141510.5"), ("TP53")]) ("TP53") = none := by
  have h := resolveEnsemblIds_direct_and_failopen [("ENSG00000141510.5"), ("TP53")]
  constructor
  · have h1 := (h.1 ("ENSG00000141510.5") ("ENSG00000141510") (by simp) (by decide)
      (by decide)).2 none
    rw [show jsTrim ("ENSG00000141510.5") = "ENSG00000141510.5" from by decide] at h1
    exact h1
  · have h3 := h.2.1 ("TP53") (by simp) (by decide) (by decide)
    rw [show jsTrim ("TP53") = "TP53" from by decide] at h3
    exact h.2.2 ("TP53") h3

/-- C8 counterexample: submitting to the enrichment handler with the
`indication_id` form field omitted is rejected with 400, not accepted. -/
theorem indication_omitted_rejected :
    indicationGate none = GateResult.rejected400 := by decide

/-- C8 (amended): in the enrichment handler the `indication_id` field is
required, not optional — an omitted or blank field is rejected with 400 (the
same path as a value outside the allow-list, before any file parsing or
insert), and only allow-list values are accepted; submissions without the
field are only served by the separate enrichment-free handler, which reads no
indication field at all. -/
theorem indication_field_required :
    indicationGate none = GateResult.rejected400 ∧
    (∀ v, isValidIndication (jsTrim v) = false →
      indicationGate (some v) = GateResult.rejected400) ∧
    (∀ v, jsTrim v ≠ "" → isValidIndication (jsTrim v) = true →
      indicationGate (some v) = GateResult.accepted (jsTrim v)) := by
  have hgate : ∀ v, indicationGate (some v) =
      (if jsTrim v = "" ∨ isValidIndication (jsTrim v) = false then GateResult.rejected400
       else GateResult.accepted (jsTrim v)) := fun v => rfl
  refine ⟨by decide, ?_, ?_⟩
  · intro v hv
    rw [hgate, if_pos (Or.inr hv)]
  · intro v hne hv
    rw [hgate, if_neg ?hcond]
    intro hor
    rcases hor with h1 | h2
    · exact hne h1
    · rw [hv] at h2
      exact Bool.noConfusion h2

/-- C8 exercised: a non-allow-list value is rejected, the allow-list value
`EFO_0000565` is accepted. -/
theorem indication_field_required_witness :
    indicationGate (some ("BAD_ID")) = GateResult.rejected400 ∧
    indicationGate (some ("EFO_0000565")) = GateResult.accepted ("EFO_0000565") := by
  have h := indication_field_required
  refine ⟨h.2.1 ("BAD_ID") (by decide), ?_⟩
  have h2 := h.2.2 ("EFO_0000565") (by decide) (by decide)
  rw [show jsTrim ("EFO_0000565") = "EFO_0000565" from by decide] at h2
  exact h2

end Zenolink
